import Mathlib

set_option maxRecDepth 100000

/-!
Verification development for a Go content-addressable blob store
(package blobstore).  The store keeps committed objects under
root/blobRoot at a digest-derived fan-out path, staging symlinks under
root/stageRoot, and temp files under root/tempRoot.  This file embeds
the Go code (Store, Writer, DumbGarbageCollector and the Go standard
library path helpers they use) as executable Lean definitions and
proves the specification's claims about them.

Conventions of the embedding:
* Go strings are Lean `String`s (all strings involved are ASCII, so
  Go's byte indexing coincides with `Char` indexing).
* Byte slices are `List Nat` (each entry a byte value).
* The filesystem is an explicit value (`Fs`) threaded through every
  operation; `statErr`/`roErr` model paths on which the substrate's
  stat, respectively remove, calls fail with a non-not-exist error
  (e.g. a permission error).
* A Go runtime panic (out-of-range string slice) is a distinct
  outcome (`Out.panics` / `none`), never an error value.
-/

/-! ## Go standard library path helpers (path.Clean, path.Join, path.Split,
strings.HasPrefix), translated at the character-list level. -/

/-- Go strings.HasPrefix on char lists: `chStarts pre s` is true iff
`pre` is a leading segment of `s`. -/
def chStarts : List Char → List Char → Bool
  | [], _ => true
  | _ :: _, [] => false
  | a :: as, b :: bs => if a = b then chStarts as bs else false

/-- Go strings.HasPrefix: byte-prefix test (char-prefix for ASCII). -/
def strStarts (s pre : String) : Bool := chStarts pre.data s.data

/-- Split a character list on '/' (keeping empty segments, as Go's
lexical path scanning does before discarding them). -/
def splitSlash : List Char → List (List Char)
  | [] => [[]]
  | c :: cs =>
    let r := splitSlash cs
    if c = '/' then [] :: r
    else
      match r with
      | h :: t => (c :: h) :: t
      | [] => [[c]]

/-- Join character-list segments with '/'. -/
def joinSlash : List (List Char) → List Char
  | [] => []
  | [c] => c
  | c :: rest => c ++ '/' :: joinSlash rest

/-- The component-stack processing at the heart of Go's path.Clean:
"." is dropped, ".." pops a normal component (or is kept when nothing
can be popped and the path is relative), anything else is pushed. -/
def cleanSegs : List (List Char) → List (List Char) → Bool → List (List Char)
  | [], stack, _ => stack.reverse
  | c :: rest, stack, rooted =>
    if c = ['.'] then cleanSegs rest stack rooted
    else if c = ['.', '.'] then
      match stack with
      | [] => if rooted then cleanSegs rest [] rooted else cleanSegs rest [['.', '.']] rooted
      | top :: stk =>
        if top = ['.', '.'] then cleanSegs rest (c :: top :: stk) rooted
        else cleanSegs rest stk rooted
    else cleanSegs rest (c :: stack) rooted

/-- Go path.Clean: lexically canonical form of a slash-separated path. -/
def goPathClean (p : String) : String :=
  if p.data = [] then "."
  else
    let rooted : Bool := match p.data with | '/' :: _ => true | _ => false
    let comps := (splitSlash p.data).filter (fun c => ¬ c = [])
    let out := cleanSegs comps [] rooted
    if rooted then ⟨'/' :: joinSlash out⟩
    else if out = [] then "." else ⟨joinSlash out⟩

/-- Go path.Join: join the non-empty elements with slashes and Clean
the result; all-empty input gives the empty string. -/
def goPathJoin (elems : List String) : String :=
  let es := elems.filter (fun e => ¬ e = "")
  if es = [] then "" else goPathClean ⟨joinSlash (es.map String.data)⟩

/-- The file component of Go path.Split: everything after the final
slash (the whole path when it has no slash). -/
def goSplitFile (p : String) : String := ⟨(splitSlash p.data).getLastD []⟩

/-- Go string slicing s[a:b] (callers guard the bounds; out-of-range
slices in the Go code are modelled at the call sites, not here). -/
def goSlice (s : String) (a b : Nat) : String := ⟨(s.data.drop a).take (b - a)⟩

/-! ## SHA-256 (crypto/sha256), executable at the Nat level. -/

/-- 2^32, the word modulus of SHA-256. -/
def w32 : Nat := 4294967296

/-- Rotate a 32-bit word right by n bits. -/
def rotr32 (n x : Nat) : Nat := ((x % w32) >>> n) ||| ((x <<< (32 - n)) % w32)

/-- The SHA-256 round constants. -/
def kList : List Nat :=
  [1116352408, 1899447441, 3049323471, 3921009573, 961987163, 1508970993,
   2453635748, 2870763221, 3624381080, 310598401, 607225278, 1426881987,
   1925078388, 2162078206, 2614888103, 3248222580, 3835390401, 4022224774,
   264347078, 604807628, 770255983, 1249150122, 1555081692, 1996064986,
   2554220882, 2821834349, 2952996808, 3210313671, 3336571891, 3584528711,
   113926993, 338241895, 666307205, 773529912, 1294757372, 1396182291,
   1695183700, 1986661051, 2177026350, 2456956037, 2730485921, 2820302411,
   3259730800, 3345764771, 3516065817, 3600352804, 4094571909, 275423344,
   430227734, 506948616, 659060556, 883997877, 958139571, 1322822218,
   1537002063, 1747873779, 1955562222, 2024104815, 2227730452, 2361852424,
   2428436474, 2756734187, 3204031479, 3329325298]

/-- The eight 32-bit words of the SHA-256 compression state. -/
structure Hv where
  a : Nat
  b : Nat
  c : Nat
  d : Nat
  e : Nat
  f : Nat
  g : Nat
  h : Nat

/-- The SHA-256 initial hash value. -/
def shaIV : Hv :=
  ⟨1779033703, 3144134277, 1013904242, 2773480762, 1359893119, 2600822924, 528734635, 1541459225⟩

/-- Big-endian 8-byte encoding of a 64-bit length. -/
def toBE8 (n : Nat) : List Nat :=
  [n / 2 ^ 56 % 256, n / 2 ^ 48 % 256, n / 2 ^ 40 % 256, n / 2 ^ 32 % 256,
   n / 2 ^ 24 % 256, n / 2 ^ 16 % 256, n / 2 ^ 8 % 256, n % 256]

/-- SHA-256 message padding: a 0x80 byte, zeros to 56 mod 64, then the
bit length as an 8-byte big-endian value. -/
def shaPad (msg : List Nat) : List Nat :=
  msg ++ 0x80 :: List.replicate ((119 - msg.length % 64) % 64) 0 ++ toBE8 (msg.length * 8 % 2 ^ 64)

/-- Group bytes into big-endian 32-bit words. -/
def bytesToWords : List Nat → List Nat
  | b0 :: b1 :: b2 :: b3 :: rest => (((b0 * 256 + b1) * 256 + b2) * 256 + b3) :: bytesToWords rest
  | _ => []

/-- Extend the 16 block words to the 64-entry message schedule; `acc`
holds the words produced so far, most recent first. -/
def extendWords : Nat → List Nat → List Nat
  | 0, acc => acc.reverse
  | fuel + 1, acc =>
    let g := fun k => acc.getD k 0
    let s0 := rotr32 7 (g 14) ^^^ rotr32 18 (g 14) ^^^ ((g 14) >>> 3)
    let s1 := rotr32 17 (g 1) ^^^ rotr32 19 (g 1) ^^^ ((g 1) >>> 10)
    extendWords fuel (((g 15 + s0 + g 6 + s1) % w32) :: acc)

/-- The 64-word message schedule of one block. -/
def msgSchedule (ws : List Nat) : List Nat := extendWords 48 ws.reverse

/-- One SHA-256 round with round constant k and schedule word w. -/
def shaRound (k w : Nat) (st : Hv) : Hv :=
  let s1 := rotr32 6 st.e ^^^ rotr32 11 st.e ^^^ rotr32 25 st.e
  let ch := (st.e &&& st.f) ^^^ ((st.e ^^^ 4294967295) &&& st.g)
  let t1 := (st.h + s1 + ch + k + w) % w32
  let s0 := rotr32 2 st.a ^^^ rotr32 13 st.a ^^^ rotr32 22 st.a
  let mj := (st.a &&& st.b) ^^^ (st.a &&& st.c) ^^^ (st.b &&& st.c)
  let t2 := (s0 + mj) % w32
  ⟨(t1 + t2) % w32, st.a, st.b, st.c, (st.d + t1) % w32, st.e, st.f, st.g⟩

/-- Compress one 64-byte block into the running hash value. -/
def compressBlock (hv : Hv) (blk : List Nat) : Hv :=
  let ws := msgSchedule (bytesToWords blk)
  let st := (kList.zip ws).foldl (fun st kw => shaRound kw.1 kw.2 st) hv
  ⟨(hv.a + st.a) % w32, (hv.b + st.b) % w32, (hv.c + st.c) % w32, (hv.d + st.d) % w32,
   (hv.e + st.e) % w32, (hv.f + st.f) % w32, (hv.g + st.g) % w32, (hv.h + st.h) % w32⟩

/-- Split a byte list into 64-byte chunks (fuel-driven structural
recursion; the fuel is the list length, ample since every step
consumes at least one element). -/
def chunksAux : Nat → List Nat → List (List Nat)
  | 0, _ => []
  | _, [] => []
  | fuel + 1, l => l.take 64 :: chunksAux fuel (l.drop 64)

/-- Split a byte list into 64-byte chunks. -/
def chunks64 (l : List Nat) : List (List Nat) := chunksAux l.length l

/-- Big-endian 4-byte encoding of a 32-bit word. -/
def wordBE (w : Nat) : List Nat := [w / 16777216 % 256, w / 65536 % 256, w / 256 % 256, w % 256]

/-- SHA-256 digest (32 bytes) of a byte sequence. -/
def sha256 (msg : List Nat) : List Nat :=
  let hv := (chunks64 (shaPad msg)).foldl compressBlock shaIV
  wordBE hv.a ++ wordBE hv.b ++ wordBE hv.c ++ wordBE hv.d ++
  wordBE hv.e ++ wordBE hv.f ++ wordBE hv.g ++ wordBE hv.h

/-- One lowercase hex digit. -/
def hexDigitChar (n : Nat) : Char := if n < 10 then Char.ofNat (48 + n) else Char.ofNat (87 + n)

/-- Two lowercase hex digits of one byte. -/
def hexByteChars (b : Nat) : List Char := [hexDigitChar (b / 16 % 16), hexDigitChar (b % 16)]

/-- Go fmt.Sprintf "%x" on a byte slice: lowercase hexadecimal. -/
def bytesToHex (bs : List Nat) : String := ⟨bs.foldr (fun b acc => hexByteChars b ++ acc) []⟩

/-- SHA-256 test vector: the empty input (cross-check of the digest
engine against the published value). -/
theorem sha256_empty_vector :
    bytesToHex (sha256 []) = "e3b0c44298fc1c149afbf4c8996fb92427ae41e4649b934ca495991b7852b855" := by
  decide

/-- SHA-256 test vector: "hello", the worked example of the spec. -/
theorem sha256_hello_vector :
    bytesToHex (sha256 [104, 101, 108, 108, 111]) =
      "2cf24dba5fb0a30e26e83b2ac5b9e29e1b161e5c1fa7425e73043362938b9824" := by
  decide

/-- SHA-256 test vector: a 56-byte input exercising the two-block
padding path. -/
theorem sha256_two_block_vector :
    bytesToHex (sha256 ("abcdbcdecdefdefgefghfghighijhijkijkljklmklmnlmnomnopnopq".data.map Char.toNat)) =
      "248d6a61d20638b8e5c026930c3e6039a33ce45964ff2167f6ecedd419db06c1" := by
  decide

/-! ## The filesystem model

A filesystem is a finite map from absolute path strings to nodes
(regular files with byte contents, or symbolic links with a target
string), plus two lists injecting substrate failures: `statErr` are
paths on which stat fails with a non-not-exist error (e.g. EACCES) and
`roErr` are paths on which remove fails likewise.  Directories are
implicit: a path is a directory when some node lives strictly below
it.  `tmpCount` drives the unique-temp-file primitive. -/

/-- A filesystem node: a regular file or a symbolic link. -/
inductive FsNode where
  | file (content : List Nat)
  | symlink (target : String)
deriving DecidableEq

/-- The filesystem state threaded through every store operation. -/
structure Fs where
  nodes : List (String × FsNode)
  statErr : List String
  roErr : List String
  tmpCount : Nat
deriving DecidableEq

/-- The empty filesystem. -/
def emptyFs : Fs := ⟨[], [], [], 0⟩

/-- Look up the node at a path. -/
def Fs.find (fs : Fs) (p : String) : Option FsNode :=
  (fs.nodes.find? (fun pn => decide (pn.1 = p))).map (fun pn => pn.2)

/-- Create or replace the node at a path. -/
def Fs.setNode (fs : Fs) (p : String) (n : FsNode) : Fs :=
  { fs with nodes := (p, n) :: fs.nodes.filter (fun pn => !decide (pn.1 = p)) }

/-- Delete the node at a path. -/
def Fs.delNode (fs : Fs) (p : String) : Fs :=
  { fs with nodes := fs.nodes.filter (fun pn => !decide (pn.1 = p)) }

/-- True when some node lives strictly below the path, i.e. the path
is an (implicit) directory. -/
def Fs.hasChild (fs : Fs) (p : String) : Bool :=
  fs.nodes.any (fun pn => strStarts pn.1 (p ++ "/"))

/-- Outcome of the substrate's stat call. -/
inductive StatRes where
  | ok
  | notExist
  | otherErr
deriving DecidableEq

/-- os.Stat: fails with an injected non-not-exist error on `statErr`
paths, succeeds on nodes and (implicit) directories, and reports
not-exist otherwise. -/
def Fs.stat (fs : Fs) (p : String) : StatRes :=
  if fs.statErr.contains p then .otherErr
  else if (fs.find p).isSome || fs.hasChild p then .ok
  else .notExist

/-- The error values the Go code can return: its two fmt.Errorf
messages and the substrate errors it passes through. -/
inductive GoErr where
  | noSuchObject (id : String)
  | noCommitedBlob (id : String)
  | statFailed (p : String)
  | notExistErr (p : String)
  | permission (p : String)
  | isDirErr (p : String)
  | ioFailure (p : String)
deriving DecidableEq

/-- Outcome of a fallible Go operation: a value or an error, each with
the resulting filesystem, or a runtime panic. -/
inductive Out (α : Type) where
  | ok (a : α) (fs : Fs)
  | err (e : GoErr) (fs : Fs)
  | panics
deriving DecidableEq

/-- The final filesystem of a non-panicking outcome. -/
def Out.endFs {α : Type} : Out α → Option Fs
  | .ok _ fs => some fs
  | .err _ fs => some fs
  | .panics => none

/-- Walk-range test: filepath.Walk of root r visits r and everything
below it (directories, which both walk callbacks skip, are omitted
from `Fs.under`). -/
def underRoot (r p : String) : Bool := decide (p = r) || strStarts p (r ++ "/")

/-- The nodes under a walk root (see above). -/
def Fs.under (fs : Fs) (r : String) : List (String × FsNode) :=
  fs.nodes.filter (fun pn => underRoot r pn.1)

/-! ## The blobstore code (Go package blobstore, final variant) -/

/-- An Object: a value type whose only attribute is its identifier. -/
structure Object where
  id : String
deriving DecidableEq

/-- Object.Id. -/
def Object.Id (o : Object) : String := o.id

/-- The Store configuration: root, the three sub-area names, and the
hash-construction function. -/
structure Store where
  root : String
  blobRoot : String
  stageRoot : String
  tempRoot : String
  objectIDHasher : List Nat → List Nat

/-- Store.qualifyBlobPath. -/
def Store.qualifyBlobPath (s : Store) (p : String) : String :=
  goPathJoin [s.root, s.blobRoot, p]

/-- Store.qualifyStagePath. -/
def Store.qualifyStagePath (s : Store) (p : String) : String :=
  goPathJoin [s.root, s.stageRoot, p]

/-- Store.objToPath: qualifyBlobPath(path.Join(id[0:1], id[1:2],
id[2:6], id)).  The Go slices panic when the identifier is shorter
than 6 bytes; that outcome is `none`. -/
def Store.objToPath (s : Store) (o : Object) : Option String :=
  if 6 ≤ o.id.length then
    some (s.qualifyBlobPath (goPathJoin [goSlice o.id 0 1, goSlice o.id 1 2, goSlice o.id 2 6, o.id]))
  else none

/-- The package-level Load constructor: the default store layout
(root is assumed already absolute; filepath.Abs is the identity on
absolute paths). -/
def loadStore (root : String) : Store :=
  ⟨root, ".blobs/store", "", ".blobs/new", sha256⟩

/-- Store.Exists: stat the blob path and report !os.IsNotExist(err);
`none` is the panic of objToPath on a short identifier. -/
def Store.Exists (s : Store) (fs : Fs) (o : Object) : Option Bool :=
  (s.objToPath o).map (fun p => match fs.stat p with | .notExist => false | _ => true)

/-- Store.Open: os.Open on the blob path, following symlink chains
(fuelled; the fuel bound exceeds any chain the finite node list can
form).  Opening an implicit directory is reported as an error, which
collapses os.Open-then-read on a directory into one step. -/
def Fs.openPath (fs : Fs) : Nat → String → Out (List Nat)
  | 0, p => .err (.ioFailure p) fs
  | fuel + 1, p =>
    match fs.find p with
    | some (.file c) => .ok c fs
    | some (.symlink t) => fs.openPath fuel t
    | none => if fs.hasChild p then .err (.isDirErr p) fs else .err (.notExistErr p) fs

/-- Store.Open. -/
def Store.Open (s : Store) (fs : Fs) (o : Object) : Out (List Nat) :=
  match s.objToPath o with
  | none => .panics
  | some p => fs.openPath (fs.nodes.length + 1) p

/-- Store.Link: require the object committed, ensure the stage parent
directories (implicit here), replace any existing entry at the stage
path, then create the symlink to the blob path. -/
def Store.Link (s : Store) (fs : Fs) (o : Object) (targetPath : String) : Out Unit :=
  match s.Exists fs o with
  | none => .panics
  | some false => .err (.noCommitedBlob o.Id) fs
  | some true =>
    match s.objToPath o with
    | none => .panics
    | some storePath =>
      let stagePath := s.qualifyStagePath targetPath
      match fs.stat stagePath with
      | .otherErr => .err (.statFailed stagePath) fs
      | .ok =>
        if fs.roErr.contains stagePath then .err (.permission stagePath) fs
        else
          match fs.find stagePath with
          | some _ => .ok () ((fs.delNode stagePath).setNode stagePath (.symlink storePath))
          | none => .err (.notExistErr stagePath) fs
      | .notExist => .ok () (fs.setNode stagePath (.symlink storePath))

/-- Store.Load (the identifier-validating method). -/
def Store.Load (s : Store) (fs : Fs) (hash : String) : Out Object :=
  let o : Object := ⟨hash⟩
  match s.Exists fs o with
  | none => .panics
  | some true => .ok o fs
  | some false => .err (.noSuchObject hash) fs

/-- Store.Linked: walk the stage area; skip directories and anything
whose cleaned path is inside the blob root; read each link, skipping
non-links; keep targets whose cleaned form is inside the blob root;
record the target's final path component as the identifier.  The Go
map-of-slices is modelled as the list of (object, stage path) pairs
in walk order. -/
def Store.LinkedPairs (s : Store) (fs : Fs) : List (Object × String) :=
  let blobRootC := goPathClean (goPathJoin [s.root, s.blobRoot])
  (fs.under (goPathJoin [s.root, s.stageRoot])).filterMap (fun pn =>
    if strStarts (goPathClean pn.1) blobRootC then none
    else
      match pn.2 with
      | .file _ => none
      | .symlink link =>
        if strStarts (goPathClean link) blobRootC then some (⟨goSplitFile link⟩, pn.1)
        else none)

/-- Membership of an object among the keys of Linked's map. -/
def linkedHas (pairs : List (Object × String)) (o : Object) : Bool :=
  pairs.any (fun pr => decide (pr.1 = o))

/-- Store.List: walk the blob area; every non-directory entry becomes
an Object named by its final path component. -/
def Store.ListObjects (s : Store) (fs : Fs) : List Object :=
  (fs.under (goPathJoin [s.root, s.blobRoot])).map (fun pn => ⟨goSplitFile pn.1⟩)

/-- DumbGarbageCollector.Find: iterate the full list and keep every
object that is not a key of Linked's map. -/
def DumbGarbageCollector.Find (s : Store) (fs : Fs) : List Object :=
  (s.ListObjects fs).foldl
    (fun ret node => if linkedHas (s.LinkedPairs fs) node then ret else ret ++ [node]) []

/-- Store.Remove: require the object to exist, then os.Remove its blob
path (which fails on `roErr` paths and on paths carrying no node). -/
def Store.Remove (s : Store) (fs : Fs) (o : Object) : Out Unit :=
  match s.Exists fs o with
  | none => .panics
  | some false => .err (.noSuchObject o.Id) fs
  | some true =>
    match s.objToPath o with
    | none => .panics
    | some p =>
      if fs.roErr.contains p then .err (.permission p) fs
      else
        match fs.find p with
        | some _ => .ok () (fs.delNode p)
        | none => .err (.notExistErr p) fs

/-- The sweep loop of Store.GC: remove each candidate in turn,
aborting on the first failure. -/
def Store.sweepList (s : Store) : List Object → Fs → Out Unit
  | [], fs => .ok () fs
  | o :: rest, fs =>
    match s.Remove fs o with
    | .ok _ fs' => s.sweepList rest fs'
    | .err e fs' => .err e fs'
    | .panics => .panics

/-- Store.GC with the default DumbGarbageCollector strategy: find the
candidates, then sweep them. -/
def Store.GC (s : Store) (fs : Fs) : Out Unit :=
  s.sweepList (DumbGarbageCollector.Find s fs) fs

/-- A write session (Go type Writer; renamed since Lean's library
already declares Writer): the temp file path, the bytes streamed so
far (fed identically to the temp file and the digest accumulator by
the MultiWriter), and the hash function attached at creation. -/
structure GoWriter where
  path : String
  data : List Nat
  hasher : List Nat → List Nat

/-- Store.Create: ensure the temp area, open a fresh uniquely named
temp file, attach the store's hasher. -/
def Store.Create (s : Store) (fs : Fs) : GoWriter × Fs :=
  let dir := goPathJoin [s.root, s.tempRoot]
  let tempPath := goPathJoin [dir, "blob" ++ toString fs.tmpCount]
  (⟨tempPath, [], s.objectIDHasher⟩,
   { fs.setNode tempPath (.file []) with tmpCount := fs.tmpCount + 1 })

/-- Writer.Write: the MultiWriter appends the bytes to the temp file
and feeds the same bytes to the digest accumulator. -/
def GoWriter.write (w : GoWriter) (fs : Fs) (b : List Nat) : GoWriter × Fs :=
  ({ w with data := w.data ++ b }, fs.setNode w.path (.file (w.data ++ b)))

/-- Stream a list of chunks through a write session. -/
def writeAll (w : GoWriter) (fs : Fs) (chunks : List (List Nat)) : GoWriter × Fs :=
  chunks.foldl (fun wf b => wf.1.write wf.2 b) (w, fs)

/-- Store.Commit: close the temp file, finalize the digest into the
hex identifier, ensure the fan-out directories, and os.Rename the temp
file onto the blob path (rename replaces any existing node there). -/
def Store.Commit (s : Store) (fs : Fs) (w : GoWriter) : Out Object :=
  let oid := bytesToHex (w.hasher w.data)
  let obj : Object := ⟨oid⟩
  match s.objToPath obj with
  | none => .panics
  | some objPath =>
    match fs.find w.path with
    | none => .err (.notExistErr w.path) fs
    | some node => .ok obj ((fs.delNode w.path).setNode objPath node)

/-- The full write-session protocol of the spec: create a session,
stream the chunks, commit. -/
def commitScenario (s : Store) (fs0 : Fs) (chunks : List (List Nat)) : Out Object :=
  let cr := s.Create fs0
  let wf := writeAll cr.1 cr.2 chunks
  s.Commit wf.2 wf.1

/-! ## Basic lemmas about the filesystem model -/

/-- Filtering out the p-entries does not change a lookup at q ≠ p. -/
theorem findPair_filter (l : List (String × FsNode)) (p q : String) (h : q ≠ p) :
    (l.filter (fun pn => !decide (pn.1 = p))).find? (fun pn => decide (pn.1 = q)) =
      l.find? (fun pn => decide (pn.1 = q)) := by
  induction l with
  | nil => rfl
  | cons a l ih =>
    cases hap : decide (a.1 = p) with
    | true =>
      have hap' := of_decide_eq_true hap
      have haq : decide (a.1 = q) = false :=
        decide_eq_false (fun hq => h (hq ▸ hap'))
      simp [List.filter_cons, hap, List.find?_cons, haq, ih]
    | false =>
      cases haq : decide (a.1 = q) with
      | true => simp [List.filter_cons, hap, List.find?_cons, haq]
      | false => simp [List.filter_cons, hap, List.find?_cons, haq, ih]

/-- Looking up the path just set yields the new node. -/
theorem Fs.find_setNode_self (fs : Fs) (p : String) (n : FsNode) :
    (fs.setNode p n).find p = some n := by
  simp [Fs.find, Fs.setNode, List.find?_cons]

/-- Setting one path does not change a lookup at another. -/
theorem Fs.find_setNode_ne (fs : Fs) (p q : String) (n : FsNode) (h : q ≠ p) :
    (fs.setNode p n).find q = fs.find q := by
  simp [Fs.find, Fs.setNode, List.find?_cons, Ne.symm h, findPair_filter _ _ _ h]

/-- Deleting one path does not change a lookup at another. -/
theorem Fs.find_delNode_ne (fs : Fs) (p q : String) (h : q ≠ p) :
    (fs.delNode p).find q = fs.find q := by
  simp [Fs.find, Fs.delNode, findPair_filter _ _ _ h]

/-- A not-exist stat means: the stat did not fail, no node is at the
path, and nothing lives below it. -/
theorem Fs.stat_notExist_elim (fs : Fs) (p : String) (h : fs.stat p = .notExist) :
    fs.find p = none ∧ fs.hasChild p = false := by
  unfold Fs.stat at h
  split at h
  · exact absurd h (by simp)
  · split at h
    · exact absurd h (by simp)
    · rename_i hnot
      constructor
      · cases hf : fs.find p with
        | none => rfl
        | some n => exact absurd (by simp [hf]) hnot
      · cases hc : fs.hasChild p with
        | false => rfl
        | true => exact absurd (by simp [hc]) hnot

/-- The SHA-256 digest always has 32 bytes. -/
theorem sha256_length (msg : List Nat) : (sha256 msg).length = 32 := by
  simp [sha256, wordBE]

/-- Hex encoding doubles the length. -/
theorem bytesToHex_length (bs : List Nat) : (bytesToHex bs).length = 2 * bs.length := by
  show (bs.foldr (fun b acc => hexByteChars b ++ acc) []).length = 2 * bs.length
  induction bs with
  | nil => rfl
  | cons b bs ih =>
    have hstep : (b :: bs).foldr (fun b acc => hexByteChars b ++ acc) [] =
        hexByteChars b ++ bs.foldr (fun b acc => hexByteChars b ++ acc) [] := rfl
    rw [hstep, List.length_append, ih]
    simp [hexByteChars]
    omega

/-- A SHA-256 hex identifier has 64 characters. -/
theorem shaHexLength (msg : List Nat) : (bytesToHex (sha256 msg)).length = 64 := by
  rw [bytesToHex_length, sha256_length]

/-- Streaming chunks through a write session keeps the temp path and
the hasher, appends the chunks to both the session's byte record and
the temp file, and the two never diverge. -/
theorem writeAll_inv (chunks : List (List Nat)) (w : GoWriter) (fs : Fs)
    (hfile : fs.find w.path = some (.file w.data)) :
    (writeAll w fs chunks).1.path = w.path ∧
    (writeAll w fs chunks).1.hasher = w.hasher ∧
    (writeAll w fs chunks).1.data = w.data ++ chunks.flatten ∧
    (writeAll w fs chunks).2.find w.path = some (.file (w.data ++ chunks.flatten)) := by
  induction chunks generalizing w fs with
  | nil => simpa [writeAll] using hfile
  | cons c rest ih =>
    have step : writeAll w fs (c :: rest) =
        writeAll ⟨w.path, w.data ++ c, w.hasher⟩ (fs.setNode w.path (.file (w.data ++ c))) rest := by
      simp [writeAll, GoWriter.write]
    have hfile' : (fs.setNode w.path (.file (w.data ++ c))).find w.path =
        some (.file (w.data ++ c)) := Fs.find_setNode_self _ _ _
    have ih' := ih ⟨w.path, w.data ++ c, w.hasher⟩ (fs.setNode w.path (.file (w.data ++ c))) hfile'
    rw [step]
    simpa [List.append_assoc] using ih'

/-- The blob path of a 64-character hex identifier, spelled as the
claim's fan-out formula blobArea / id[0:1] / id[1:2] / id[2:6] / id. -/
def fanoutPath (s : Store) (id : String) : String :=
  s.qualifyBlobPath (goPathJoin [goSlice id 0 1, goSlice id 1 2, goSlice id 2 6, id])

/-- objToPath agrees with the fan-out formula on identifiers of length
at least 6. -/
theorem objToPath_eq_fanout (s : Store) (id : String) (h : 6 ≤ id.length) :
    s.objToPath ⟨id⟩ = some (fanoutPath s id) := by
  simp [Store.objToPath, fanoutPath, h]

/-- Core of the commit pipeline: creating a session, streaming chunks
and committing yields the SHA-256 hex identifier of the streamed
bytes, leaves the bytes as a regular file at the fan-out blob path,
and Open on the returned object reproduces them. -/
theorem commitScenario_spec (s : Store) (fs0 : Fs) (chunks : List (List Nat))
    (hh : s.objectIDHasher = sha256) :
    ∃ fs3,
      commitScenario s fs0 chunks = .ok ⟨bytesToHex (sha256 chunks.flatten)⟩ fs3 ∧
      fs3.find (fanoutPath s (bytesToHex (sha256 chunks.flatten))) = some (.file chunks.flatten) ∧
      s.Open fs3 ⟨bytesToHex (sha256 chunks.flatten)⟩ = .ok chunks.flatten fs3 := by
  set w0 := (s.Create fs0).1 with hw0
  set fs1 := (s.Create fs0).2 with hfs1
  have hpath : w0.path = goPathJoin [goPathJoin [s.root, s.tempRoot], "blob" ++ toString fs0.tmpCount] := rfl
  have hdata : w0.data = [] := rfl
  have hhash : w0.hasher = s.objectIDHasher := rfl
  have hfile : fs1.find w0.path = some (.file w0.data) := by
    show ({ fs0.setNode w0.path (.file []) with tmpCount := fs0.tmpCount + 1 } : Fs).find w0.path
        = some (.file w0.data)
    rw [hdata]
    have : ({ fs0.setNode w0.path (.file []) with tmpCount := fs0.tmpCount + 1 } : Fs).find w0.path
        = (fs0.setNode w0.path (.file [])).find w0.path := by
      simp [Fs.find, Fs.setNode]
    rw [this]
    exact Fs.find_setNode_self _ _ _
  obtain ⟨hp, hhsh, hdt, hfd⟩ := writeAll_inv chunks w0 fs1 hfile
  set w1 := (writeAll w0 fs1 chunks).1 with hw1
  set fs2 := (writeAll w0 fs1 chunks).2 with hfs2
  have hid : bytesToHex (w1.hasher w1.data) = bytesToHex (sha256 chunks.flatten) := by
    rw [hhsh, hhash, hh, hdt, hdata]
    simp
  have hlen : 6 ≤ (bytesToHex (sha256 chunks.flatten)).length := by
    rw [shaHexLength]
    omega
  have hobj : s.objToPath ⟨bytesToHex (sha256 chunks.flatten)⟩ =
      some (fanoutPath s (bytesToHex (sha256 chunks.flatten))) :=
    objToPath_eq_fanout s _ hlen
  have hfd' : fs2.find w1.path = some (.file chunks.flatten) := by
    rw [hp, hfd, hdata]
    simp
  refine ⟨(fs2.delNode w1.path).setNode (fanoutPath s (bytesToHex (sha256 chunks.flatten)))
      (.file chunks.flatten), ?_, ?_, ?_⟩
  · show s.Commit fs2 w1 = _
    unfold Store.Commit
    rw [hid]
    simp only [hobj, hfd']
  · exact Fs.find_setNode_self _ _ _
  · unfold Store.Open
    rw [hobj]
    simp [Fs.openPath, Fs.find_setNode_self]

/-! ## Claim theorems -/

/-- C1: Commit integrity — for every byte sequence b streamed through
a write session via write, commit returns an Object whose identifier
is the lowercase hexadecimal SHA-256 digest of b, the committed bytes
are stored as a regular file at blobArea/id[0:1]/id[1:2]/id[2:6]/id,
and open on that Object reproduces b exactly.  (The store's hasher is
the default sha256 one installed by Load.) -/
theorem commit_integrity (s : Store) (fs0 : Fs) (chunks : List (List Nat))
    (hh : s.objectIDHasher = sha256) :
    ∃ fs3,
      commitScenario s fs0 chunks = .ok ⟨bytesToHex (sha256 chunks.flatten)⟩ fs3 ∧
      fs3.find (fanoutPath s (bytesToHex (sha256 chunks.flatten))) = some (.file chunks.flatten) ∧
      s.Open fs3 ⟨bytesToHex (sha256 chunks.flatten)⟩ = .ok chunks.flatten fs3 :=
  commitScenario_spec s fs0 chunks hh

/-- Witness for C1: committing the bytes of "hello" on the default
store yields the spec's worked-example digest, stores the bytes at the
fan-out path, and Open reproduces them. -/
theorem commit_integrity_witness :
    (loadStore "/r").objectIDHasher = sha256 ∧
    (∃ fs3,
      commitScenario (loadStore "/r") emptyFs [[104, 101, 108, 108, 111]] =
        .ok ⟨bytesToHex (sha256 [[104, 101, 108, 108, 111]].flatten)⟩ fs3 ∧
      fs3.find (fanoutPath (loadStore "/r") (bytesToHex (sha256 [[104, 101, 108, 108, 111]].flatten)))
        = some (.file [[104, 101, 108, 108, 111]].flatten) ∧
      (loadStore "/r").Open fs3 ⟨bytesToHex (sha256 [[104, 101, 108, 108, 111]].flatten)⟩
        = .ok [[104, 101, 108, 108, 111]].flatten fs3) :=
  ⟨rfl, commit_integrity (loadStore "/r") emptyFs [[104, 101, 108, 108, 111]] rfl⟩

/-- C3 counterexample: commit does NOT treat an already-existing
destination as a no-op.  With a (differing) file already present at
the destination blob path, committing "hello" replaces that file's
content with the newly streamed bytes: the rename overwrites, it does
not discard the temp file and keep the existing object file. -/
theorem commit_duplicate_counterexample :
    commitScenario (loadStore "/r")
        ⟨[("/r/.blobs/store/2/c/f24d/2cf24dba5fb0a30e26e83b2ac5b9e29e1b161e5c1fa7425e73043362938b9824",
           .file [9, 9, 9])], [], [], 0⟩
        [[104, 101, 108, 108, 111]] =
      .ok ⟨"2cf24dba5fb0a30e26e83b2ac5b9e29e1b161e5c1fa7425e73043362938b9824"⟩
        ⟨[("/r/.blobs/store/2/c/f24d/2cf24dba5fb0a30e26e83b2ac5b9e29e1b161e5c1fa7425e73043362938b9824",
           .file [104, 101, 108, 108, 111])], [], [], 1⟩ ∧
    ¬ ([104, 101, 108, 108, 111] = [9, 9, 9]) := by
  decide

/-- C3 amended: when the destination blob path already exists at
commit time, commit performs no existence check: it unconditionally
renames the temp file onto the destination, atomically replacing
whatever node was there with the newly committed bytes, and returns
the Object of the computed identifier. -/
theorem commit_overwrite_semantics (s : Store) (fs0 : Fs) (chunks : List (List Nat)) (n0 : FsNode)
    (hh : s.objectIDHasher = sha256)
    (hexist : fs0.find (fanoutPath s (bytesToHex (sha256 chunks.flatten))) = some n0) :
    ∃ fs3,
      commitScenario s fs0 chunks = .ok ⟨bytesToHex (sha256 chunks.flatten)⟩ fs3 ∧
      fs3.find (fanoutPath s (bytesToHex (sha256 chunks.flatten))) = some (.file chunks.flatten) := by
  obtain ⟨fs3, h1, h2, _⟩ := commitScenario_spec s fs0 chunks hh
  exact ⟨fs3, h1, h2⟩

/-- Witness for the amended C3: a store whose destination path already
holds a different file; commit succeeds and the destination afterwards
holds the committed bytes. -/
theorem commit_overwrite_semantics_witness :
    (loadStore "/r").objectIDHasher = sha256 ∧
    (⟨[("/r/.blobs/store/2/c/f24d/2cf24dba5fb0a30e26e83b2ac5b9e29e1b161e5c1fa7425e73043362938b9824",
        .file [9, 9, 9])], [], [], 0⟩ : Fs).find
        (fanoutPath (loadStore "/r") (bytesToHex (sha256 [[104, 101, 108, 108, 111]].flatten)))
      = some (.file [9, 9, 9]) ∧
    (∃ fs3,
      commitScenario (loadStore "/r")
          ⟨[("/r/.blobs/store/2/c/f24d/2cf24dba5fb0a30e26e83b2ac5b9e29e1b161e5c1fa7425e73043362938b9824",
             .file [9, 9, 9])], [], [], 0⟩
          [[104, 101, 108, 108, 111]] =
        .ok ⟨bytesToHex (sha256 [[104, 101, 108, 108, 111]].flatten)⟩ fs3 ∧
      fs3.find (fanoutPath (loadStore "/r") (bytesToHex (sha256 [[104, 101, 108, 108, 111]].flatten)))
        = some (.file [[104, 101, 108, 108, 111]].flatten)) :=
  ⟨rfl, by decide,
   commit_overwrite_semantics (loadStore "/r") _ [[104, 101, 108, 108, 111]] (.file [9, 9, 9])
     rfl (by decide)⟩

/-- A Remove that returns an error leaves the filesystem unchanged. -/
theorem Remove_err_eq (s : Store) (fs : Fs) (o : Object) (e : GoErr) (fs2 : Fs)
    (h : s.Remove fs o = .err e fs2) : fs2 = fs := by
  unfold Store.Remove at h
  split at h
  · cases h
  · injection h with h1 h2; exact h2.symm
  · split at h
    · cases h
    · split at h
      · injection h with h1 h2; exact h2.symm
      · split at h
        · cases h
        · injection h with h1 h2; exact h2.symm

/-- A successful Remove deletes exactly the object's blob path. -/
theorem Remove_ok_shape (s : Store) (fs : Fs) (o : Object) (a : Unit) (fs2 : Fs)
    (h : s.Remove fs o = .ok a fs2) :
    ∃ p, s.objToPath o = some p ∧ fs2 = fs.delNode p := by
  unfold Store.Remove at h
  split at h
  · cases h
  · cases h
  · split at h
    · cases h
    · rename_i p hop
      split at h
      · cases h
      · split at h
        · injection h with h1 h2
          exact ⟨p, hop, h2.symm⟩
        · cases h

/-- The sweep loop never touches a path that is not the blob path of
one of its candidates. -/
theorem sweep_preserves (s : Store) (p : String) :
    ∀ (cs : List Object) (fs fs' : Fs),
      (∀ c ∈ cs, s.objToPath c ≠ some p) →
      (s.sweepList cs fs).endFs = some fs' → fs'.find p = fs.find p := by
  intro cs
  induction cs with
  | nil =>
    intro fs fs' _ hend
    simp [Store.sweepList, Out.endFs] at hend
    rw [hend]
  | cons c rest ih =>
    intro fs fs' hall hend
    simp only [Store.sweepList] at hend
    cases hr : s.Remove fs c with
    | ok a fsi =>
      simp only [hr] at hend
      obtain ⟨pc, hpc, hfsi⟩ := Remove_ok_shape s fs c a fsi hr
      have hne : p ≠ pc := by
        intro hpp
        exact hall c (List.mem_cons_self c rest) (by rw [hpc, hpp])
      have hrec := ih fsi fs' (fun c2 hc2 => hall c2 (List.mem_cons_of_mem c hc2)) hend
      rw [hrec, hfsi, Fs.find_delNode_ne fs pc p hne]
    | err e fsi =>
      simp only [hr, Out.endFs] at hend
      injection hend with h3
      rw [← h3, Remove_err_eq s fs c e fsi hr]
    | panics =>
      simp only [hr, Out.endFs] at hend
      cases hend

/-- The Go accumulation loop of DumbGarbageCollector.Find is a filter. -/
theorem find_foldl_filter (P : List (Object × String)) (l : List Object) (acc : List Object) :
    l.foldl (fun ret node => if linkedHas P node then ret else ret ++ [node]) acc =
      acc ++ l.filter (fun node => !linkedHas P node) := by
  induction l generalizing acc with
  | nil => simp
  | cons a l ih =>
    cases hL : linkedHas P a with
    | true => simp [List.foldl_cons, hL, List.filter_cons, ih]
    | false => simp [List.foldl_cons, hL, List.filter_cons, ih]

/-- C2: GC soundness and candidate set — the default strategy's
candidates are exactly list() minus linked() (set difference by
identifier), a linked object is never a candidate, and the GC sweep
leaves the file of a linked object untouched (at any path that is not
the blob path of some candidate). -/
theorem gc_soundness (s : Store) (fs : Fs) (o : Object)
    (h : linkedHas (s.LinkedPairs fs) o = true) :
    DumbGarbageCollector.Find s fs =
      (s.ListObjects fs).filter (fun node => !linkedHas (s.LinkedPairs fs) node) ∧
    o ∉ DumbGarbageCollector.Find s fs ∧
    (∀ p fs', s.objToPath o = some p →
      (∀ c ∈ DumbGarbageCollector.Find s fs, s.objToPath c ≠ some p) →
      (s.GC fs).endFs = some fs' → fs'.find p = fs.find p) := by
  have hfind : DumbGarbageCollector.Find s fs =
      (s.ListObjects fs).filter (fun node => !linkedHas (s.LinkedPairs fs) node) := by
    unfold DumbGarbageCollector.Find
    simpa using find_foldl_filter (s.LinkedPairs fs) (s.ListObjects fs) []
  refine ⟨hfind, ?_, ?_⟩
  · rw [hfind]
    intro hmem
    have h2 := (List.mem_filter.mp hmem).2
    rw [h] at h2
    cases h2
  · intro p fs' hp hall hend
    exact sweep_preserves s p (DumbGarbageCollector.Find s fs) fs fs' hall hend

/-- Witness for C2: a store holding two committed blobs, one of them
staging-linked; the linked one is not a candidate. -/
theorem gc_soundness_witness :
    linkedHas
        ((loadStore "/r").LinkedPairs
          ⟨[("/r/.blobs/store/a/a/aaaa/aaaaaa", .file [1]),
            ("/r/.blobs/store/b/b/bbbb/bbbbbb", .file [2]),
            ("/r/stage1", .symlink "/r/.blobs/store/a/a/aaaa/aaaaaa")], [], [], 0⟩)
        ⟨"aaaaaa"⟩ = true ∧
    (⟨"aaaaaa"⟩ : Object) ∉
      DumbGarbageCollector.Find (loadStore "/r")
        ⟨[("/r/.blobs/store/a/a/aaaa/aaaaaa", .file [1]),
          ("/r/.blobs/store/b/b/bbbb/bbbbbb", .file [2]),
          ("/r/stage1", .symlink "/r/.blobs/store/a/a/aaaa/aaaaaa")], [], [], 0⟩ :=
  ⟨by decide,
   (gc_soundness (loadStore "/r")
     ⟨[("/r/.blobs/store/a/a/aaaa/aaaaaa", .file [1]),
       ("/r/.blobs/store/b/b/bbbb/bbbbbb", .file [2]),
       ("/r/stage1", .symlink "/r/.blobs/store/a/a/aaaa/aaaaaa")], [], [], 0⟩
     ⟨"aaaaaa"⟩ (by decide)).2.1⟩

/-- A failing sweep splits its candidate list: a prefix that was
removed successfully, the failing candidate whose error is surfaced
unchanged, and an untouched suffix. -/
theorem sweepList_err_decomp (s : Store) :
    ∀ (cs : List Object) (fs : Fs) (e : GoErr) (fs' : Fs),
      s.sweepList cs fs = .err e fs' →
      ∃ pre bad post fsMid, cs = pre ++ bad :: post ∧
        s.sweepList pre fs = .ok () fsMid ∧
        s.Remove fsMid bad = .err e fs' ∧ fs' = fsMid := by
  intro cs
  induction cs with
  | nil =>
    intro fs e fs' h
    cases h
  | cons c rest ih =>
    intro fs e fs' h
    simp only [Store.sweepList] at h
    cases hr : s.Remove fs c with
    | ok a fsi =>
      simp only [hr] at h
      obtain ⟨pre, bad, post, fsMid, hdec, hok, herr, heq⟩ := ih fsi e fs' h
      cases a
      refine ⟨c :: pre, bad, post, fsMid, by rw [hdec]; rfl, ?_, herr, heq⟩
      simp only [Store.sweepList, hr, hok]
    | err e2 fsi =>
      simp only [hr] at h
      injection h with h1 h2
      refine ⟨[], c, rest, fs, rfl, rfl, ?_, ?_⟩
      · rw [hr, h1, h2]
      · rw [← h2, Remove_err_eq s fs c e2 fsi hr]
    | panics =>
      simp only [hr] at h
      cases h

/-- C8: GC fail-fast with retained partial progress — when a runGC
sweep errors, the candidate list splits into a removed prefix, the
failing candidate whose first removal error is surfaced as the run's
error, and an unprocessed suffix; the resulting filesystem is exactly
the state after the prefix removals (already-removed objects stay
removed), the unprocessed candidates' files are untouched (at paths
not aliased by a removed candidate), and a subsequent run recomputes
the candidate set fresh from the current filesystem. -/
theorem gc_failfast (s : Store) (fs : Fs) (e : GoErr) (fs' : Fs)
    (h : s.GC fs = .err e fs') :
    (∃ pre bad post fsMid,
      DumbGarbageCollector.Find s fs = pre ++ bad :: post ∧
      s.sweepList pre fs = .ok () fsMid ∧
      s.Remove fsMid bad = .err e fs' ∧
      fs' = fsMid ∧
      (∀ c ∈ post, ∀ p, s.objToPath c = some p →
        (∀ c2 ∈ pre, s.objToPath c2 ≠ some p) → fs'.find p = fs.find p)) ∧
    s.GC fs' = s.sweepList (DumbGarbageCollector.Find s fs') fs' := by
  constructor
  · obtain ⟨pre, bad, post, fsMid, hdec, hok, herr, heq⟩ :=
      sweepList_err_decomp s (DumbGarbageCollector.Find s fs) fs e fs' h
    refine ⟨pre, bad, post, fsMid, hdec, hok, herr, heq, ?_⟩
    intro c hc p hp hall
    rw [heq]
    exact sweep_preserves s p pre fs fsMid hall (by rw [hok]; rfl)
  · rfl

/-- Witness for C8: two unlinked blobs, the second one's path failing
removal; GC removes the first, surfaces the permission error, and
leaves the second in place. -/
theorem gc_failfast_witness :
    (loadStore "/r").GC
        ⟨[("/r/.blobs/store/a/a/aaaa/aaaaaa", .file [1]),
          ("/r/.blobs/store/b/b/bbbb/bbbbbb", .file [2])], [],
         ["/r/.blobs/store/b/b/bbbb/bbbbbb"], 0⟩ =
      .err (.permission "/r/.blobs/store/b/b/bbbb/bbbbbb")
        ⟨[("/r/.blobs/store/b/b/bbbb/bbbbbb", .file [2])], [],
         ["/r/.blobs/store/b/b/bbbb/bbbbbb"], 0⟩ ∧
    (∃ pre bad post fsMid,
      DumbGarbageCollector.Find (loadStore "/r")
          ⟨[("/r/.blobs/store/a/a/aaaa/aaaaaa", .file [1]),
            ("/r/.blobs/store/b/b/bbbb/bbbbbb", .file [2])], [],
           ["/r/.blobs/store/b/b/bbbb/bbbbbb"], 0⟩ = pre ++ bad :: post ∧
      (loadStore "/r").sweepList pre
          ⟨[("/r/.blobs/store/a/a/aaaa/aaaaaa", .file [1]),
            ("/r/.blobs/store/b/b/bbbb/bbbbbb", .file [2])], [],
           ["/r/.blobs/store/b/b/bbbb/bbbbbb"], 0⟩ = .ok () fsMid ∧
      (loadStore "/r").Remove fsMid bad =
        .err (.permission "/r/.blobs/store/b/b/bbbb/bbbbbb")
          ⟨[("/r/.blobs/store/b/b/bbbb/bbbbbb", .file [2])], [],
           ["/r/.blobs/store/b/b/bbbb/bbbbbb"], 0⟩ ∧
      (⟨[("/r/.blobs/store/b/b/bbbb/bbbbbb", .file [2])], [],
        ["/r/.blobs/store/b/b/bbbb/bbbbbb"], 0⟩ : Fs) = fsMid ∧
      (∀ c ∈ post, ∀ p, (loadStore "/r").objToPath c = some p →
        (∀ c2 ∈ pre, (loadStore "/r").objToPath c2 ≠ some p) →
        (⟨[("/r/.blobs/store/b/b/bbbb/bbbbbb", .file [2])], [],
          ["/r/.blobs/store/b/b/bbbb/bbbbbb"], 0⟩ : Fs).find p =
          (⟨[("/r/.blobs/store/a/a/aaaa/aaaaaa", .file [1]),
             ("/r/.blobs/store/b/b/bbbb/bbbbbb", .file [2])], [],
            ["/r/.blobs/store/b/b/bbbb/bbbbbb"], 0⟩ : Fs).find p)) :=
  ⟨by decide,
   (gc_failfast (loadStore "/r")
     ⟨[("/r/.blobs/store/a/a/aaaa/aaaaaa", .file [1]),
       ("/r/.blobs/store/b/b/bbbb/bbbbbb", .file [2])], [],
      ["/r/.blobs/store/b/b/bbbb/bbbbbb"], 0⟩
     (.permission "/r/.blobs/store/b/b/bbbb/bbbbbb")
     ⟨[("/r/.blobs/store/b/b/bbbb/bbbbbb", .file [2])], [],
      ["/r/.blobs/store/b/b/bbbb/bbbbbb"], 0⟩ (by decide)).1⟩

/-- Filtering by the same path predicate twice equals once. -/
theorem filter_filter_same (l : List (String × FsNode)) (p : String) :
    (l.filter (fun pn => !decide (pn.1 = p))).filter (fun pn => !decide (pn.1 = p)) =
      l.filter (fun pn => !decide (pn.1 = p)) := by
  rw [List.filter_filter]
  congr 1
  funext pn
  exact Bool.and_self _

/-- Deleting a path then setting it equals just setting it. -/
theorem delNode_setNode (fs : Fs) (p : String) (n : FsNode) :
    (fs.delNode p).setNode p n = fs.setNode p n := by
  simp [Fs.delNode, Fs.setNode, filter_filter_same]

/-- Introduction rule for Linked's records: a stage-area symlink whose
path is in walk range and not inside the blob root, and whose target's
cleaned form is inside the blob root, is recorded under the target's
final path component. -/
theorem linkedPairs_mem_intro (s : Store) (fs : Fs) (q t : String)
    (hnode : (q, FsNode.symlink t) ∈ fs.nodes)
    (hrange : underRoot (goPathJoin [s.root, s.stageRoot]) q = true)
    (hq : strStarts (goPathClean q) (goPathClean (goPathJoin [s.root, s.blobRoot])) = false)
    (ht : strStarts (goPathClean t) (goPathClean (goPathJoin [s.root, s.blobRoot])) = true) :
    (⟨goSplitFile t⟩, q) ∈ s.LinkedPairs fs := by
  unfold Store.LinkedPairs
  refine List.mem_filterMap.mpr ⟨(q, .symlink t), ?_, ?_⟩
  · exact List.mem_filter.mpr ⟨hnode, hrange⟩
  · simp [hq, ht]

/-- Elimination rule for Linked's records: every recorded pair comes
from a stage-area symlink node satisfying Linked's filters. -/
theorem linkedPairs_mem_elim (s : Store) (fs : Fs) (pr : Object × String)
    (h : pr ∈ s.LinkedPairs fs) :
    ∃ t, (pr.2, FsNode.symlink t) ∈ fs.nodes ∧
      underRoot (goPathJoin [s.root, s.stageRoot]) pr.2 = true ∧
      strStarts (goPathClean pr.2) (goPathClean (goPathJoin [s.root, s.blobRoot])) = false ∧
      strStarts (goPathClean t) (goPathClean (goPathJoin [s.root, s.blobRoot])) = true ∧
      pr.1 = ⟨goSplitFile t⟩ := by
  unfold Store.LinkedPairs at h
  obtain ⟨pn, hmem, hf⟩ := List.mem_filterMap.mp h
  obtain ⟨hin, hr⟩ := List.mem_filter.mp hmem
  obtain ⟨pq, pnode⟩ := pn
  by_cases hq : strStarts (goPathClean pq) (goPathClean (goPathJoin [s.root, s.blobRoot])) = true
  · simp [hq] at hf
  · cases pnode with
    | file c => simp [hq] at hf
    | symlink t =>
      by_cases ht : strStarts (goPathClean t) (goPathClean (goPathJoin [s.root, s.blobRoot])) = true
      · simp only [hq, ht, Bool.false_eq_true, if_false, if_true] at hf
        injection hf with hf
        refine ⟨t, ?_, ?_, ?_, ht, ?_⟩
        · rw [← hf]; exact hin
        · rw [← hf]; exact hr
        · rw [← hf]; simpa using hq
        · rw [← hf]
      · simp [hq, ht] at hf

/-- A successful Link ends with exactly the stage path bound to a
symlink whose target is the object's blob path. -/
theorem link_ok_shape (s : Store) (fs : Fs) (o : Object) (tp : String) (fs' : Fs)
    (h : s.Link fs o tp = .ok () fs') :
    ∃ storePath, s.objToPath o = some storePath ∧
      fs' = fs.setNode (s.qualifyStagePath tp) (.symlink storePath) := by
  unfold Store.Link at h
  split at h
  · cases h
  · cases h
  · split at h
    · cases h
    · rename_i storePath hop
      simp only [] at h
      split at h
      · cases h
      · split at h
        · cases h
        · split at h
          · injection h with h1 h2
            exact ⟨storePath, hop, by rw [← h2, delNode_setNode]⟩
          · cases h
      · injection h with h1 h2
        exact ⟨storePath, hop, h2.symm⟩

/-- Part (a) of reachability: after a successful link, the object is
recorded in linked() under the qualified stage path, provided the
stage path is in walk range and the paths relate to the blob root the
way the default layout guarantees. -/
theorem link_appears (s : Store) (fs : Fs) (o : Object) (tp : String) (fs' : Fs)
    (storePath : String)
    (hok : s.Link fs o tp = .ok () fs')
    (hsp : s.objToPath o = some storePath)
    (hrange : underRoot (goPathJoin [s.root, s.stageRoot]) (s.qualifyStagePath tp) = true)
    (hq : strStarts (goPathClean (s.qualifyStagePath tp))
      (goPathClean (goPathJoin [s.root, s.blobRoot])) = false)
    (ht : strStarts (goPathClean storePath)
      (goPathClean (goPathJoin [s.root, s.blobRoot])) = true)
    (hleaf : goSplitFile storePath = o.id) :
    (o, s.qualifyStagePath tp) ∈ s.LinkedPairs fs' := by
  obtain ⟨sp2, hsp2, hfs'⟩ := link_ok_shape s fs o tp fs' hok
  rw [hsp] at hsp2
  injection hsp2 with he
  subst he
  subst hfs'
  have hnode : (s.qualifyStagePath tp, FsNode.symlink storePath) ∈
      (fs.setNode (s.qualifyStagePath tp) (.symlink storePath)).nodes := by
    simp [Fs.setNode]
  have hm := linkedPairs_mem_intro s _ (s.qualifyStagePath tp) storePath hnode hrange hq ht
  rw [hleaf] at hm
  obtain ⟨oid⟩ := o
  exact hm

/-- Part (b) of reachability: a stage entry whose symlink target lies
outside the blob area is ignored by linked(). -/
theorem linked_ignores_foreign (s : Store) (fs : Fs) (q t : String)
    (hall : fs.nodes.all (fun pn => !decide (pn.1 = q) || decide (pn.2 = FsNode.symlink t)) = true)
    (ht : strStarts (goPathClean t) (goPathClean (goPathJoin [s.root, s.blobRoot])) = false) :
    ∀ o : Object, (o, q) ∉ s.LinkedPairs fs := by
  intro o hmem
  obtain ⟨t2, hnode, _, _, ht2, _⟩ := linkedPairs_mem_elim s fs (o, q) hmem
  have h2 : FsNode.symlink t2 = FsNode.symlink t := by
    simpa using List.all_eq_true.mp hall _ hnode
  injection h2 with h3
  rw [h3, ht] at ht2
  cases ht2

/-- Part (c1) of reachability: when all of an object's linked()
records sit at one stage path, deleting that path's node drops the
object from linked(). -/
theorem linked_after_delete (s : Store) (fs : Fs) (o : Object) (q : String)
    (honly : (s.LinkedPairs fs).all (fun pr => !decide (pr.1 = o) || decide (pr.2 = q)) = true) :
    linkedHas (s.LinkedPairs (fs.delNode q)) o = false := by
  cases hL : linkedHas (s.LinkedPairs (fs.delNode q)) o with
  | false => rfl
  | true =>
    exfalso
    obtain ⟨pr, hpr, hpro⟩ := List.any_eq_true.mp hL
    have hpro' : pr.1 = o := of_decide_eq_true hpro
    obtain ⟨t, hnode, hrange, hq, ht, hid⟩ := linkedPairs_mem_elim s _ pr hpr
    have hmem2 := List.mem_filter.mp hnode
    have hneq : ¬ pr.2 = q := by simpa using hmem2.2
    have hpr_fs : pr ∈ s.LinkedPairs fs := by
      have hmi := linkedPairs_mem_intro s fs pr.2 t hmem2.1 hrange hq ht
      rw [← hid] at hmi
      exact hmi
    have hall := List.all_eq_true.mp honly pr hpr_fs
    rw [hpro'] at hall
    simp at hall
    exact hneq hall

/-- Part (c2) of reachability: replacing the stage path's symlink with
one pointing elsewhere (outside the blob area, or at a different leaf
identifier) drops the object from linked() when that path held its
only records. -/
theorem linked_after_replace (s : Store) (fs : Fs) (o : Object) (q t2 : String)
    (honly : (s.LinkedPairs fs).all (fun pr => !decide (pr.1 = o) || decide (pr.2 = q)) = true)
    (hnew : strStarts (goPathClean t2) (goPathClean (goPathJoin [s.root, s.blobRoot])) = false ∨
      ¬ goSplitFile t2 = o.id) :
    linkedHas (s.LinkedPairs (fs.setNode q (.symlink t2))) o = false := by
  cases hL : linkedHas (s.LinkedPairs (fs.setNode q (.symlink t2))) o with
  | false => rfl
  | true =>
    exfalso
    obtain ⟨pr, hpr, hpro⟩ := List.any_eq_true.mp hL
    have hpro' : pr.1 = o := of_decide_eq_true hpro
    obtain ⟨t3, hnode, hrange, hq, ht3, hid⟩ := linkedPairs_mem_elim s _ pr hpr
    have hsplit : (pr.2, FsNode.symlink t3) = (q, FsNode.symlink t2) ∨
        (pr.2, FsNode.symlink t3) ∈ fs.nodes.filter (fun pn => !decide (pn.1 = q)) := by
      simpa [Fs.setNode] using hnode
    cases hsplit with
    | inl hhead =>
      injection hhead with ha hb
      injection hb with hbt
      rw [hbt] at ht3
      cases hnew with
      | inl hforeign => rw [ht3] at hforeign; cases hforeign
      | inr hlf =>
        apply hlf
        rw [← hbt, ← hpro', hid]
    | inr htail =>
      have hmem2 := List.mem_filter.mp htail
      have hneq : ¬ pr.2 = q := by simpa using hmem2.2
      have hpr_fs : pr ∈ s.LinkedPairs fs := by
        have hmi := linkedPairs_mem_intro s fs pr.2 t3 hmem2.1 hrange hq ht3
        rw [← hid] at hmi
        exact hmi
      have hall := List.all_eq_true.mp honly pr hpr_fs
      rw [hpro'] at hall
      simp at hall
      exact hneq hall

/-- C4: Reachability correctness — after link(o, p) succeeds, o
appears in linked() keyed with the qualified stage path among its
paths; stage entries whose symlink target lies outside the blob area
are ignored by linked(); and after the reference at that path is
removed, or replaced to point elsewhere, o no longer appears in
linked() (when that path held its only records). -/
theorem link_reachability :
    (∀ (s : Store) (fs : Fs) (o : Object) (tp : String) (fs' : Fs) (storePath : String),
      s.Link fs o tp = .ok () fs' →
      s.objToPath o = some storePath →
      underRoot (goPathJoin [s.root, s.stageRoot]) (s.qualifyStagePath tp) = true →
      strStarts (goPathClean (s.qualifyStagePath tp))
        (goPathClean (goPathJoin [s.root, s.blobRoot])) = false →
      strStarts (goPathClean storePath)
        (goPathClean (goPathJoin [s.root, s.blobRoot])) = true →
      goSplitFile storePath = o.id →
      (o, s.qualifyStagePath tp) ∈ s.LinkedPairs fs') ∧
    (∀ (s : Store) (fs : Fs) (q t : String),
      fs.nodes.all (fun pn => !decide (pn.1 = q) || decide (pn.2 = FsNode.symlink t)) = true →
      strStarts (goPathClean t) (goPathClean (goPathJoin [s.root, s.blobRoot])) = false →
      ∀ o : Object, (o, q) ∉ s.LinkedPairs fs) ∧
    (∀ (s : Store) (fs : Fs) (o : Object) (q : String),
      (s.LinkedPairs fs).all (fun pr => !decide (pr.1 = o) || decide (pr.2 = q)) = true →
      linkedHas (s.LinkedPairs (fs.delNode q)) o = false) ∧
    (∀ (s : Store) (fs : Fs) (o : Object) (q t2 : String),
      (s.LinkedPairs fs).all (fun pr => !decide (pr.1 = o) || decide (pr.2 = q)) = true →
      (strStarts (goPathClean t2) (goPathClean (goPathJoin [s.root, s.blobRoot])) = false ∨
        ¬ goSplitFile t2 = o.id) →
      linkedHas (s.LinkedPairs (fs.setNode q (.symlink t2))) o = false) :=
  ⟨link_appears, linked_ignores_foreign, linked_after_delete, linked_after_replace⟩

/-- Witness for C4: one committed blob; linking it at "stage1" makes
it appear in linked() under "/r/stage1"; a foreign symlink is never
recorded; deleting or redirecting the stage entry drops the object. -/
theorem link_reachability_witness :
    ((⟨"aaaaaa"⟩ : Object), "/r/stage1") ∈
      (loadStore "/r").LinkedPairs
        ⟨[("/r/stage1", .symlink "/r/.blobs/store/a/a/aaaa/aaaaaa"),
          ("/r/.blobs/store/a/a/aaaa/aaaaaa", .file [1])], [], [], 0⟩ ∧
    (∀ o : Object, (o, "/r/foreign") ∉
      (loadStore "/r").LinkedPairs
        ⟨[("/r/foreign", .symlink "/elsewhere/target")], [], [], 0⟩) ∧
    linkedHas
      ((loadStore "/r").LinkedPairs
        ((⟨[("/r/stage1", .symlink "/r/.blobs/store/a/a/aaaa/aaaaaa"),
            ("/r/.blobs/store/a/a/aaaa/aaaaaa", .file [1])], [], [], 0⟩ : Fs).delNode "/r/stage1"))
      ⟨"aaaaaa"⟩ = false ∧
    linkedHas
      ((loadStore "/r").LinkedPairs
        ((⟨[("/r/stage1", .symlink "/r/.blobs/store/a/a/aaaa/aaaaaa"),
            ("/r/.blobs/store/a/a/aaaa/aaaaaa", .file [1])], [], [], 0⟩ : Fs).setNode "/r/stage1"
          (.symlink "/elsewhere/x")))
      ⟨"aaaaaa"⟩ = false :=
  ⟨link_reachability.1 (loadStore "/r") ⟨[("/r/.blobs/store/a/a/aaaa/aaaaaa", .file [1])], [], [], 0⟩
      ⟨"aaaaaa"⟩ "stage1"
      ⟨[("/r/stage1", .symlink "/r/.blobs/store/a/a/aaaa/aaaaaa"),
        ("/r/.blobs/store/a/a/aaaa/aaaaaa", .file [1])], [], [], 0⟩
      "/r/.blobs/store/a/a/aaaa/aaaaaa"
      (by decide) (by decide) (by decide) (by decide) (by decide) (by decide),
   link_reachability.2.1 (loadStore "/r")
      ⟨[("/r/foreign", .symlink "/elsewhere/target")], [], [], 0⟩
      "/r/foreign" "/elsewhere/target" (by decide) (by decide),
   link_reachability.2.2.1 (loadStore "/r")
      ⟨[("/r/stage1", .symlink "/r/.blobs/store/a/a/aaaa/aaaaaa"),
        ("/r/.blobs/store/a/a/aaaa/aaaaaa", .file [1])], [], [], 0⟩
      ⟨"aaaaaa"⟩ "/r/stage1" (by decide),
   link_reachability.2.2.2 (loadStore "/r")
      ⟨[("/r/stage1", .symlink "/r/.blobs/store/a/a/aaaa/aaaaaa"),
        ("/r/.blobs/store/a/a/aaaa/aaaaaa", .file [1])], [], [], 0⟩
      ⟨"aaaaaa"⟩ "/r/stage1" "/elsewhere/x" (by decide) (.inl (by decide))⟩

/-- In char lists, a list is always a leading segment of itself
followed by anything. -/
theorem chStarts_append (l e : List Char) : chStarts l (l ++ e) = true := by
  induction l with
  | nil => rfl
  | cons c cs ih => simp [chStarts, ih]

/-- C10: Containment by string prefix — linked() decides whether a
symlink target lies inside the blob area by a plain string-prefix
comparison of the cleaned target against the cleaned blob root, and
takes the identifier to be the target's final path component; hence a
target whose cleaned string merely extends the blob-root string (for
example a sibling directory such as blobRoot ++ "2/...", or an
interior fan-out directory) is counted as a staging link to an object
named by the target's leaf. -/
theorem linked_contains_by_string_extension (s : Store) (fs : Fs) (q t ext : String)
    (hnode : (q, FsNode.symlink t) ∈ fs.nodes)
    (hrange : underRoot (goPathJoin [s.root, s.stageRoot]) q = true)
    (hq : strStarts (goPathClean q) (goPathClean (goPathJoin [s.root, s.blobRoot])) = false)
    (hext : goPathClean t = goPathClean (goPathJoin [s.root, s.blobRoot]) ++ ext) :
    (⟨goSplitFile t⟩, q) ∈ s.LinkedPairs fs := by
  apply linkedPairs_mem_intro s fs q t hnode hrange hq
  rw [strStarts, hext, String.data_append]
  exact chStarts_append _ _

/-- Witness for C10: a symlink to "/r/.blobs/store2/deadbeef" — a
sibling directory whose name extends the blob root "/r/.blobs/store"
as a string — is recorded as a staging link to object "deadbeef". -/
theorem linked_contains_by_string_extension_witness :
    ((⟨goSplitFile "/r/.blobs/store2/deadbeef"⟩ : Object), "/r/x") ∈
      (loadStore "/r").LinkedPairs
        ⟨[("/r/x", .symlink "/r/.blobs/store2/deadbeef")], [], [], 0⟩ ∧
    goSplitFile "/r/.blobs/store2/deadbeef" = "deadbeef" :=
  ⟨linked_contains_by_string_extension (loadStore "/r")
      ⟨[("/r/x", .symlink "/r/.blobs/store2/deadbeef")], [], [], 0⟩
      "/r/x" "/r/.blobs/store2/deadbeef" "2/deadbeef"
      (by decide) (by decide) (by decide) (by decide),
   by decide⟩

/-- C6 counterexample: the identifier "abc" names no committed object
(the store is empty), yet open, remove, link and load do not fail with
a not-found error — the out-of-range identifier slicing in objToPath
makes them panic instead. -/
theorem notfound_counterexample :
    (loadStore "/r").Open emptyFs ⟨"abc"⟩ = .panics ∧
    (loadStore "/r").Remove emptyFs ⟨"abc"⟩ = .panics ∧
    (loadStore "/r").Link emptyFs ⟨"abc"⟩ "x" = .panics ∧
    (loadStore "/r").Load emptyFs "abc" = .panics := by
  decide

/-- C6 amended: for every identifier of length at least 6 whose blob
path stat reports not-exist, open fails with the substrate not-exist
error, remove and load fail with NoSuchObject, link fails with
NoCommitedBlob, and each failing call returns the filesystem
unchanged. -/
theorem notfound_semantics (s : Store) (fs : Fs) (id p tp : String)
    (hp : s.objToPath ⟨id⟩ = some p) (hs : fs.stat p = .notExist) :
    s.Open fs ⟨id⟩ = .err (.notExistErr p) fs ∧
    s.Remove fs ⟨id⟩ = .err (.noSuchObject id) fs ∧
    s.Link fs ⟨id⟩ tp = .err (.noCommitedBlob id) fs ∧
    s.Load fs id = .err (.noSuchObject id) fs := by
  obtain ⟨hfind, hchild⟩ := Fs.stat_notExist_elim fs p hs
  have hex : s.Exists fs ⟨id⟩ = some false := by
    simp [Store.Exists, hp, hs]
  refine ⟨?_, ?_, ?_, ?_⟩
  · unfold Store.Open
    rw [hp]
    simp [Fs.openPath, hfind, hchild]
  · simp [Store.Remove, hex, Object.Id]
  · simp [Store.Link, hex, Object.Id]
  · simp [Store.Load, hex]

/-- Witness for the amended C6: the spec's own scenario 5 — loading
"deadbeef" (and opening/removing/linking it) on an empty store. -/
theorem notfound_semantics_witness :
    (loadStore "/r").objToPath ⟨"deadbeef"⟩ = some "/r/.blobs/store/d/e/adbe/deadbeef" ∧
    emptyFs.stat "/r/.blobs/store/d/e/adbe/deadbeef" = .notExist ∧
    ((loadStore "/r").Open emptyFs ⟨"deadbeef"⟩ =
        .err (.notExistErr "/r/.blobs/store/d/e/adbe/deadbeef") emptyFs ∧
      (loadStore "/r").Remove emptyFs ⟨"deadbeef"⟩ = .err (.noSuchObject "deadbeef") emptyFs ∧
      (loadStore "/r").Link emptyFs ⟨"deadbeef"⟩ "x" = .err (.noCommitedBlob "deadbeef") emptyFs ∧
      (loadStore "/r").Load emptyFs "deadbeef" = .err (.noSuchObject "deadbeef") emptyFs) :=
  ⟨by decide, by decide,
   notfound_semantics (loadStore "/r") emptyFs "deadbeef" "/r/.blobs/store/d/e/adbe/deadbeef" "x"
     (by decide) (by decide)⟩

/-- C7 counterexample: Exists answers true without any regular file at
the blob path — once when stat fails with an unexpected (non-not-exist)
error, which is swallowed into the boolean rather than propagated, and
once when the path is a directory. -/
theorem exists_counterexample :
    (loadStore "/r").Exists ⟨[], ["/r/.blobs/store/a/a/aaaa/aaaaaa"], [], 0⟩ ⟨"aaaaaa"⟩ =
      some true ∧
    (⟨[], ["/r/.blobs/store/a/a/aaaa/aaaaaa"], [], 0⟩ : Fs).find
      "/r/.blobs/store/a/a/aaaa/aaaaaa" = none ∧
    (loadStore "/r").Exists ⟨[("/r/.blobs/store/a/a/aaaa/aaaaaa/zzz", .file [])], [], [], 0⟩
      ⟨"aaaaaa"⟩ = some true ∧
    (⟨[("/r/.blobs/store/a/a/aaaa/aaaaaa/zzz", .file [])], [], [], 0⟩ : Fs).find
      "/r/.blobs/store/a/a/aaaa/aaaaaa" = none := by
  decide

/-- C7 amended: exists(id) answers false exactly when stat reports
not-exist at the blob path, and true in every other case — a file, a
directory, or an unexpected stat error, which is converted into the
true answer rather than propagated (the operation has no error
channel). -/
theorem exists_contract (s : Store) (fs : Fs) (o : Object) (p : String)
    (hp : s.objToPath o = some p) :
    (s.Exists fs o = some true ↔ fs.stat p ≠ .notExist) ∧
    (s.Exists fs o = some false ↔ fs.stat p = .notExist) := by
  have hex : s.Exists fs o =
      some (match fs.stat p with | .notExist => false | _ => true) := by
    simp [Store.Exists, hp]
  cases hst : fs.stat p with
  | ok => rw [hst] at hex; simp [hex, hst]
  | notExist => rw [hst] at hex; simp [hex, hst]
  | otherErr => rw [hst] at hex; simp [hex, hst]

/-- Witness for the amended C7: the contract evaluated on the empty
filesystem. -/
theorem exists_contract_witness :
    (loadStore "/r").objToPath ⟨"aaaaaa"⟩ = some "/r/.blobs/store/a/a/aaaa/aaaaaa" ∧
    (((loadStore "/r").Exists emptyFs ⟨"aaaaaa"⟩ = some true ↔
        emptyFs.stat "/r/.blobs/store/a/a/aaaa/aaaaaa" ≠ .notExist) ∧
      ((loadStore "/r").Exists emptyFs ⟨"aaaaaa"⟩ = some false ↔
        emptyFs.stat "/r/.blobs/store/a/a/aaaa/aaaaaa" = .notExist)) :=
  ⟨by decide,
   exists_contract (loadStore "/r") emptyFs ⟨"aaaaaa"⟩ "/r/.blobs/store/a/a/aaaa/aaaaaa"
     (by decide)⟩

/-- C9: Short-identifier totality — every identifier-taking operation
derives the blob path from id[0:1], id[1:2] and id[2:6]; for
identifiers of length at least 6 this is well-defined and equals the
fan-out path; for shorter identifiers the slicing is out of range, so
exists, open, load, remove and link panic instead of returning a
not-found error. -/
theorem objToPath_short_id_panics (s : Store) (fs : Fs) (id tp : String) :
    (6 ≤ id.length →
      s.objToPath ⟨id⟩ = some (s.qualifyBlobPath
        (goPathJoin [goSlice id 0 1, goSlice id 1 2, goSlice id 2 6, id]))) ∧
    (id.length < 6 →
      s.objToPath ⟨id⟩ = none ∧
      s.Exists fs ⟨id⟩ = none ∧
      s.Open fs ⟨id⟩ = .panics ∧
      s.Load fs id = .panics ∧
      s.Remove fs ⟨id⟩ = .panics ∧
      s.Link fs ⟨id⟩ tp = .panics) := by
  constructor
  · intro h
    simp [Store.objToPath, h]
  · intro h
    have hnone : s.objToPath ⟨id⟩ = none := by
      unfold Store.objToPath
      rw [if_neg]
      show ¬ 6 ≤ id.length
      omega
    have hex : s.Exists fs ⟨id⟩ = none := by simp [Store.Exists, hnone]
    refine ⟨hnone, hex, ?_, ?_, ?_, ?_⟩
    · simp [Store.Open, hnone]
    · simp [Store.Load, hex]
    · simp [Store.Remove, hex]
    · simp [Store.Link, hex]

/-- Witness for C9: a 6-character identifier gets a path, a
3-character identifier panics on open. -/
theorem objToPath_short_id_panics_witness :
    (6 ≤ ("abcdef" : String).length ∧
      (loadStore "/r").objToPath ⟨"abcdef"⟩ = some ((loadStore "/r").qualifyBlobPath
        (goPathJoin [goSlice "abcdef" 0 1, goSlice "abcdef" 1 2, goSlice "abcdef" 2 6, "abcdef"]))) ∧
    (("abc" : String).length < 6 ∧ (loadStore "/r").Open emptyFs ⟨"abc"⟩ = .panics) :=
  ⟨⟨by decide, (objToPath_short_id_panics (loadStore "/r") emptyFs "abcdef" "x").1 (by decide)⟩,
   ⟨by decide, ((objToPath_short_id_panics (loadStore "/r") emptyFs "abc" "x").2 (by decide)).2.2.1⟩⟩

/-- Explicit result of one create/write/commit round with a single
chunk: the blob file appears at the fan-out path, the temp file is
gone, every other node survives, and the temp counter advances. -/
theorem commitSingle_eq (s : Store) (fs0 : Fs) (b : List Nat)
    (hh : s.objectIDHasher = sha256) :
    commitScenario s fs0 [b] = .ok ⟨bytesToHex (sha256 b)⟩
      ⟨(fanoutPath s (bytesToHex (sha256 b)), .file b) ::
        ((fs0.nodes.filter (fun pn =>
            !decide (pn.1 = goPathJoin [goPathJoin [s.root, s.tempRoot],
              "blob" ++ toString fs0.tmpCount]))).filter
          (fun pn => !decide (pn.1 = fanoutPath s (bytesToHex (sha256 b))))),
       fs0.statErr, fs0.roErr, fs0.tmpCount + 1⟩ := by
  have hlen : 6 ≤ (bytesToHex (sha256 b)).length := by
    rw [shaHexLength]
    omega
  have hobj := objToPath_eq_fanout s (bytesToHex (sha256 b)) hlen
  show s.Commit ((s.Create fs0).1.write (s.Create fs0).2 b).2
      ((s.Create fs0).1.write (s.Create fs0).2 b).1 = _
  unfold Store.Commit
  rw [show ((s.Create fs0).1.write (s.Create fs0).2 b).1.hasher = s.objectIDHasher from rfl,
    show ((s.Create fs0).1.write (s.Create fs0).2 b).1.data = b from rfl, hh]
  simp only [hobj]
  rw [show ((s.Create fs0).1.write (s.Create fs0).2 b).1.path =
    goPathJoin [goPathJoin [s.root, s.tempRoot], "blob" ++ toString fs0.tmpCount] from rfl]
  rw [show ((s.Create fs0).1.write (s.Create fs0).2 b).2 =
    ({ fs0.setNode (goPathJoin [goPathJoin [s.root, s.tempRoot],
        "blob" ++ toString fs0.tmpCount]) (.file []) with
      tmpCount := fs0.tmpCount + 1 } : Fs).setNode
      (goPathJoin [goPathJoin [s.root, s.tempRoot], "blob" ++ toString fs0.tmpCount])
      (.file b) from rfl]
  rw [show (({ fs0.setNode (goPathJoin [goPathJoin [s.root, s.tempRoot],
        "blob" ++ toString fs0.tmpCount]) (.file []) with
      tmpCount := fs0.tmpCount + 1 } : Fs).setNode
      (goPathJoin [goPathJoin [s.root, s.tempRoot], "blob" ++ toString fs0.tmpCount])
      (.file b)).find
      (goPathJoin [goPathJoin [s.root, s.tempRoot], "blob" ++ toString fs0.tmpCount]) =
    some (.file b) from Fs.find_setNode_self _ _ _]
  simp only [Fs.setNode, Fs.delNode, List.filter_cons, decide_True, Bool.not_true,
    Bool.false_eq_true, if_false, filter_filter_same]

/-- countP of a cons is one when the head matches and nothing in the
tail does. -/
theorem countP_cons_zero {α : Type} (p : α → Bool) (x : α) (T : List α)
    (hx : p x = true) (hT : ∀ a ∈ T, ¬ p a = true) :
    List.countP p (x :: T) = 1 := by
  rw [List.countP_cons, List.countP_eq_zero.mpr hT, hx]
  rfl

/-- List() counts exactly one object with a given identifier when the
head node carries it (in walk range, with matching leaf) and no tail
node in walk range has that leaf. -/
theorem countP_blob_aux (s : Store) (hex P : String) (n : FsNode) (T : List (String × FsNode))
    (se re : List String) (tc : Nat)
    (hrange : underRoot (goPathJoin [s.root, s.blobRoot]) P = true)
    (hleaf : goSplitFile P = hex)
    (hT : ∀ pn ∈ T, ¬ (underRoot (goPathJoin [s.root, s.blobRoot]) pn.1 = true ∧
      goSplitFile pn.1 = hex)) :
    (s.ListObjects ⟨(P, n) :: T, se, re, tc⟩).countP (fun ob => decide (ob.id = hex)) = 1 := by
  unfold Store.ListObjects Fs.under
  rw [show (⟨(P, n) :: T, se, re, tc⟩ : Fs).nodes = (P, n) :: T from rfl,
    List.countP_map, List.countP_filter]
  apply countP_cons_zero
  · simp [Function.comp, hleaf, hrange]
  · intro pn hpn hcontra
    simp only [Function.comp] at hcontra
    have hb := Bool.and_eq_true_iff.mp hcontra
    refine hT pn hpn ⟨hb.2, ?_⟩
    have := hb.1
    simpa using this

/-- C5: Idempotent commit — committing the same byte sequence twice
through two independent write sessions yields the same identifier both
times, and afterwards list() contains exactly one entry for that
identifier (under the default-layout facts: the fan-out path is inside
the blob walk range, its leaf is the identifier, and no other initial
node under the blob area shares that leaf). -/
theorem commit_idempotent (s : Store) (fs0 : Fs) (b : List Nat)
    (hh : s.objectIDHasher = sha256)
    (hrange : underRoot (goPathJoin [s.root, s.blobRoot])
      (fanoutPath s (bytesToHex (sha256 b))) = true)
    (hleaf : goSplitFile (fanoutPath s (bytesToHex (sha256 b))) = bytesToHex (sha256 b))
    (huniq : ∀ pn ∈ fs0.nodes,
      underRoot (goPathJoin [s.root, s.blobRoot]) pn.1 = true →
      goSplitFile pn.1 = bytesToHex (sha256 b) →
      pn.1 = fanoutPath s (bytesToHex (sha256 b))) :
    ∃ fs3 fs6,
      commitScenario s fs0 [b] = .ok ⟨bytesToHex (sha256 b)⟩ fs3 ∧
      commitScenario s fs3 [b] = .ok ⟨bytesToHex (sha256 b)⟩ fs6 ∧
      (s.ListObjects fs6).countP (fun ob => decide (ob.id = bytesToHex (sha256 b))) = 1 := by
  refine ⟨_, _, commitSingle_eq s fs0 b hh, commitSingle_eq s _ b hh, ?_⟩
  apply countP_blob_aux s (bytesToHex (sha256 b)) _ _ _ _ _ _ hrange hleaf
  intro pn hpn hand
  obtain ⟨hu, hl⟩ := hand
  have h1m := List.mem_filter.mp hpn
  have hPne : ¬ pn.1 = fanoutPath s (bytesToHex (sha256 b)) := by simpa using h1m.2
  have h2m := List.mem_filter.mp h1m.1
  cases List.mem_cons.mp h2m.1 with
  | inl hhead => exact hPne (by rw [hhead])
  | inr htl =>
    have h3m := List.mem_filter.mp htl
    have h4m := List.mem_filter.mp h3m.1
    exact hPne (huniq pn h4m.1 hu hl)

/-- Witness for C5: committing "hello" twice on an empty default
store. -/
theorem commit_idempotent_witness :
    (loadStore "/r").objectIDHasher = sha256 ∧
    (∃ fs3 fs6,
      commitScenario (loadStore "/r") emptyFs [[104, 101, 108, 108, 111]] =
        .ok ⟨bytesToHex (sha256 [104, 101, 108, 108, 111])⟩ fs3 ∧
      commitScenario (loadStore "/r") fs3 [[104, 101, 108, 108, 111]] =
        .ok ⟨bytesToHex (sha256 [104, 101, 108, 108, 111])⟩ fs6 ∧
      ((loadStore "/r").ListObjects fs6).countP
        (fun ob => decide (ob.id = bytesToHex (sha256 [104, 101, 108, 108, 111]))) = 1) :=
  ⟨rfl,
   commit_idempotent (loadStore "/r") emptyFs [104, 101, 108, 108, 111] rfl
     (by decide) (by decide) (fun pn hpn => by cases hpn)⟩
